import Mathlib

/-!
Verification of the Framework-LED-Matrix cellular-automaton core.

Shallow embedding of the Python sources:
  - `led_matrix_commands.py` (board constants, `coordinates_to_matrix`, `set_led`)
  - `outer_totalistic.py`    (`outer_totalistic_rule`, driven by `cpl.evolve2d`
                              with a Moore neighbourhood and periodic boundary)
  - `gameOfLife.py` / `fun.py` (`calculate_next_gen`, `run_game_of_life`)
  - `BihamMiddletonLevineTrafficModel.py` (`bml_rule`, `run_bml`)
  - `HardyPomeauPazzis.py`   (`hpp_collide`, `run_hpp_simulation`)
  - `runtime.py`             (`run_outer_totalistic_simulation`)

Boards that live as Python `list[list[int]]` are embedded as `List (List Nat)`;
boards evolved by `cpl.evolve2d` on a torus are also embedded as functions
`ZMod h → ZMod w → Nat` where that makes counting arguments direct.
-/

namespace LedMatrix

/-- Constant `HEIGHT = 34` from `led_matrix_commands.py`. -/
def HEIGHT : Nat := 34

/-- Constant `WIDTH = 9` from `led_matrix_commands.py`. -/
def WIDTH : Nat := 9

/-- Python `list[list[int]]` board. -/
abbrev Board := List (List Nat)

/-- Toroidal read used by both Game-of-Life implementations and by
`cpl.evolve2d`'s periodic Moore neighbourhood: row index is
`(r) % num_rows` with `num_rows = len(board)`, column index is
`(c) % num_cols` with `num_cols = len(board[0])` (Python `%` on a positive
modulus equals `Int.emod`). Out-of-board reads default to `0` (never taken
on well-formed boards). -/
def tget (b : Board) (r c : Int) : Nat :=
  (b.getD ((r % (b.length : Int)).toNat) []).getD
    ((c % ((b.headD []).length : Int)).toNat) 0

/-- The 3×3 Moore neighbourhood that `cpl.evolve2d` hands to an
`apply_rule` callback for the cell at `(r, c)`: entry `[i][j]` is the board
value at `(r + i - 1, c + j - 1)` with toroidal wraparound. -/
def moore (b : Board) (r c : Nat) : List (List Nat) :=
  [[tget b (r - 1) (c - 1), tget b (r - 1) c, tget b (r - 1) (c + 1)],
   [tget b r (c - 1),       tget b r c,       tget b r (c + 1)],
   [tget b (r + 1) (c - 1), tget b (r + 1) c, tget b (r + 1) (c + 1)]]

/-- Function `outer_totalistic_rule` from `outer_totalistic.py` (lines 63–90):
`neighbor_sum = np.sum(neighbourhood) - neighbourhood[1, 1]`,
`center_val = neighbourhood[1, 1]`; a live center survives iff the sum is
in the survival set, a dead center is born iff the sum is in the birth set.
The Python `set(b_rule)`/`set(s_rule)` only support membership tests, so
lists with list-membership are an exact model. -/
def outer_totalistic_rule (b_set s_set : List Nat) (nbhd : List (List Nat)) : Nat :=
  let neighbor_sum := (nbhd.map List.sum).sum - (nbhd.getD 1 []).getD 1 0
  let center_val := (nbhd.getD 1 []).getD 1 0
  if center_val = 1 then
    if neighbor_sum ∈ s_set then 1 else 0
  else
    if neighbor_sum ∈ b_set then 1 else 0

/-- The claim's reading of the rule, written independently of the code:
the sum of the eight non-center cells of the 3×3 neighbourhood. -/
def neighborSum8 (nbhd : List (List Nat)) : Nat :=
  (nbhd.getD 0 []).getD 0 0 + (nbhd.getD 0 []).getD 1 0 + (nbhd.getD 0 []).getD 2 0 +
  (nbhd.getD 1 []).getD 0 0 + (nbhd.getD 1 []).getD 2 0 +
  (nbhd.getD 2 []).getD 0 0 + (nbhd.getD 2 []).getD 1 0 + (nbhd.getD 2 []).getD 2 0

/-- The claim's reading of the transition, written from the spec sentence:
1 exactly when (center alive and sum ∈ S) or (center dead and sum ∈ B),
otherwise 0. -/
def outerTotalisticSpec (b_set s_set : List Nat) (nbhd : List (List Nat)) : Nat :=
  let center := (nbhd.getD 1 []).getD 1 0
  if (center = 1 ∧ neighborSum8 nbhd ∈ s_set) ∨ (center = 0 ∧ neighborSum8 nbhd ∈ b_set)
  then 1 else 0

/-- Binary-cell hypothesis for a 3×3 neighbourhood. -/
def binary33 (nbhd : List (List Nat)) : Prop :=
  nbhd.length = 3 ∧ (∀ row ∈ nbhd, row.length = 3) ∧
    ∀ row ∈ nbhd, ∀ x ∈ row, x = 0 ∨ x = 1

instance (nbhd : List (List Nat)) : Decidable (binary33 nbhd) := by
  unfold binary33; infer_instance

end LedMatrix

namespace LedMatrix

/-- The code and the spec transition agree whenever the code's
`np.sum(neighbourhood) - center` quantity coincides with the literal
eight-neighbour sum and the center cell is binary. -/
theorem rule_eq_spec_of_sum (b_set s_set : List Nat) (nbhd : List (List Nat))
    (hsum : (nbhd.map List.sum).sum - (nbhd.getD 1 []).getD 1 0 = neighborSum8 nbhd)
    (hcbin : (nbhd.getD 1 []).getD 1 0 = 0 ∨ (nbhd.getD 1 []).getD 1 0 = 1) :
    outer_totalistic_rule b_set s_set nbhd = outerTotalisticSpec b_set s_set nbhd := by
  unfold outer_totalistic_rule outerTotalisticSpec
  rw [hsum]
  rcases hcbin with hc | hc <;> rw [hc] <;> dsimp only <;> split_ifs <;> simp_all

/-- Claim C1: for every 3×3 Moore neighbourhood of binary cells, the
outer-totalistic rule returns 1 exactly when either the center is 1 and the
8-neighbor sum is in S, or the center is 0 and the 8-neighbor sum is in B;
otherwise it returns 0. -/
theorem outer_totalistic_rule_correct (b_set s_set : List Nat)
    (nbhd : List (List Nat)) (h : binary33 nbhd) :
    outer_totalistic_rule b_set s_set nbhd = outerTotalisticSpec b_set s_set nbhd := by
  obtain ⟨hlen, hrow, hbin⟩ := h
  match nbhd, hlen with
  | [r0, r1, r2], _ =>
    have h0 := hrow r0 (by simp)
    have h1 := hrow r1 (by simp)
    have h2 := hrow r2 (by simp)
    match r0, h0, r1, h1, r2, h2 with
    | [a, b, c], _, [d, e, f], _, [g, h, i], _ =>
      have he : e = 0 ∨ e = 1 := hbin [d, e, f] (by simp) e (by simp)
      refine rule_eq_spec_of_sum b_set s_set _ ?_ (by simpa using he)
      simp only [neighborSum8, List.getD_cons_zero, List.getD_cons_succ,
        List.map, List.sum_cons, List.sum_nil]
      omega

/-- Witness for C1 at a concrete neighbourhood (a live center with
exactly three live neighbours under the Original rule). -/
theorem outer_totalistic_rule_correct_witness :
    outer_totalistic_rule [3] [2, 3] [[1, 1, 0], [0, 1, 1], [0, 0, 0]] =
      outerTotalisticSpec [3] [2, 3] [[1, 1, 0], [0, 1, 1], [0, 0, 0]] :=
  outer_totalistic_rule_correct [3] [2, 3] [[1, 1, 0], [0, 1, 1], [0, 0, 0]]
    (by decide)

/-- Every cell of a board is 0 or 1. -/
def binaryBoard (b : Board) : Prop := ∀ row ∈ b, ∀ x ∈ row, x = 0 ∨ x = 1

instance (b : Board) : Decidable (binaryBoard b) := by
  unfold binaryBoard; infer_instance

/-- One cell of `calculate_next_gen` (identical in `gameOfLife.py` lines
84–121 and `fun.py` lines 71–109): the 8-neighbour count is accumulated
over `dr, dc ∈ [-1, 0, 1]` minus the center (loop unrolled here in source
order), reading the `reading_board` deep-copy snapshot with `%`-wrapped
indices; the chained `if/elif` writes the new value, and the missing
`else` branch leaves the cell at its snapshot value. Since every read is
from the snapshot, the in-place loop equals this per-cell function. -/
def golCell (b : Board) (r c : Nat) : Nat :=
  let neighbor_count :=
    (if tget b (r - 1) (c - 1) = 1 then 1 else 0) +
    (if tget b (r - 1) c = 1 then 1 else 0) +
    (if tget b (r - 1) (c + 1) = 1 then 1 else 0) +
    (if tget b r (c - 1) = 1 then 1 else 0) +
    (if tget b r (c + 1) = 1 then 1 else 0) +
    (if tget b (r + 1) (c - 1) = 1 then 1 else 0) +
    (if tget b (r + 1) c = 1 then 1 else 0) +
    (if tget b (r + 1) (c + 1) = 1 then 1 else 0)
  let status := (b.getD r []).getD c 0
  if status = 1 ∧ neighbor_count < 2 then 0
  else if status = 1 ∧ (neighbor_count = 2 ∨ neighbor_count = 3) then 1
  else if status = 1 ∧ 3 < neighbor_count then 0
  else if status = 0 ∧ neighbor_count = 3 then 1
  else status

/-- Function `calculate_next_gen` as a pure function: the final value of `board`
after the double loop (`num_rows = len(board)`, `num_cols = len(board[0])`). -/
def calculate_next_gen (b : Board) : Board :=
  (List.range b.length).map fun r =>
    (List.range (b.headD []).length).map fun c => golCell b r c

/-- One synchronous application of `outer_totalistic_rule` over the whole
board, as `cpl.evolve2d` performs it: the rule applied to every cell's
toroidal Moore neighbourhood. -/
def otStep (b_set s_set : List Nat) (b : Board) : Board :=
  (List.range b.length).map fun r =>
    (List.range (b.headD []).length).map fun c =>
      outer_totalistic_rule b_set s_set (moore b r c)

/-- Reading with `getD` preserves any property that holds of the list's elements and of
the default. -/
theorem getD_prop {α : Type} {P : α → Prop} :
    ∀ (l : List α) (n : Nat) (d : α), (∀ x ∈ l, P x) → P d → P (l.getD n d)
  | [], _, _, _, hd => by simpa [List.getD] using hd
  | a :: l, 0, d, h, _ => by simpa using h a (by simp)
  | a :: l, n + 1, d, h, hd => by
      simpa using getD_prop l n d (fun x hx => h x (by simp [hx])) hd

/-- Toroidal reads of a binary board are binary. -/
theorem tget_binary (b : Board) (hb : binaryBoard b) (r c : Int) :
    tget b r c = 0 ∨ tget b r c = 1 := by
  unfold tget
  have hrow : ∀ x ∈ b.getD ((r % (b.length : Int)).toNat) [], x = 0 ∨ x = 1 :=
    getD_prop b _ [] hb (by simp)
  exact getD_prop _ _ _ hrow (Or.inl rfl)

theorem emod_toNat_of_lt {r n : Nat} (h : r < n) : (((r : Int) % (n : Int)).toNat) = r := by
  rw [Int.emod_eq_of_lt (by positivity) (by exact_mod_cast h)]
  simp

/-- For in-range indices the toroidal read is the plain read. -/
theorem tget_of_lt (b : Board) {r c : Nat} (hr : r < b.length)
    (hc : c < (b.headD []).length) :
    tget b r c = (b.getD r []).getD c 0 := by
  unfold tget
  rw [emod_toNat_of_lt hr, emod_toNat_of_lt hc]

/-- Pointwise agreement of the two Game-of-Life implementations on binary
boards: the `calculate_next_gen` cell update equals the outer-totalistic
B{3}/S{2,3} rule on the cell's Moore neighbourhood. -/
theorem golCell_eq_rule (b : Board) (hb : binaryBoard b) {r c : Nat}
    (hr : r < b.length) (hc : c < (b.headD []).length) :
    golCell b r c = outer_totalistic_rule [3] [2, 3] (moore b r c) := by
  have h00 := tget_binary b hb (r - 1) (c - 1)
  have h01 := tget_binary b hb (r - 1) c
  have h02 := tget_binary b hb (r - 1) (c + 1)
  have h10 := tget_binary b hb r (c - 1)
  have h11 := tget_binary b hb r c
  have h12 := tget_binary b hb r (c + 1)
  have h20 := tget_binary b hb (r + 1) (c - 1)
  have h21 := tget_binary b hb (r + 1) c
  have h22 := tget_binary b hb (r + 1) (c + 1)
  unfold golCell outer_totalistic_rule moore
  rw [← tget_of_lt b hr hc]
  simp only [List.map_cons, List.map_nil, List.sum_cons, List.sum_nil,
    List.getD_cons_zero, List.getD_cons_succ, List.mem_cons,
    List.mem_singleton, List.not_mem_nil, or_false]
  revert h00 h01 h02 h10 h11 h12 h20 h21 h22
  generalize tget b (r - 1) (c - 1) = a
  generalize tget b (r - 1) (c : Nat) = v01
  generalize tget b (r - 1) (c + 1) = v02
  generalize tget b (r : Nat) (c - 1) = v10
  generalize tget b (r : Nat) (c : Nat) = v11
  generalize tget b (r : Nat) (c + 1) = v12
  generalize tget b (r + 1) (c - 1) = v20
  generalize tget b (r + 1) (c : Nat) = v21
  generalize tget b (r + 1) (c + 1) = v22
  rintro (rfl | rfl) (rfl | rfl) (rfl | rfl) (rfl | rfl) (rfl | rfl)
    (rfl | rfl) (rfl | rfl) (rfl | rfl) (rfl | rfl) <;> decide

end LedMatrix

namespace LedMatrix

/-- Claim C2: on every binary HEIGHT×WIDTH board, the in-place
`calculate_next_gen` (identical in `gameOfLife.py` and `fun.py`) produces
the same next board as one synchronous toroidal application of the
outer-totalistic rule with B = {3}, S = {2, 3}. -/
theorem calculate_next_gen_eq_outer_totalistic (b : Board)
    (_hH : b.length = HEIGHT) (_hW : ∀ row ∈ b, row.length = WIDTH)
    (hb : binaryBoard b) :
    calculate_next_gen b = otStep [3] [2, 3] b := by
  unfold calculate_next_gen otStep
  refine List.map_congr_left fun r hr => ?_
  refine List.map_congr_left fun c hc => ?_
  exact golCell_eq_rule b hb (List.mem_range.mp hr) (List.mem_range.mp hc)

/-- Function `coordinates_to_matrix` from `led_matrix_commands.py` (lines 287–309):
build the all-zero HEIGHT×WIDTH matrix, then mark each in-range coordinate
pair with 1, skipping out-of-range pairs. -/
def coordinates_to_matrix (coords : List (Nat × Nat)) : Board :=
  coords.foldl
    (fun m p =>
      if p.1 < HEIGHT ∧ p.2 < WIDTH then
        m.set p.1 ((m.getD p.1 []).set p.2 1)
      else m)
    (List.replicate HEIGHT (List.replicate WIDTH 0))

/-- The `"glider"` preset coordinate list of `STARTING_STATES_GOF`
(`outer_totalistic.py` line 12). -/
def gliderStart : Board := coordinates_to_matrix [(1, 2), (2, 3), (3, 1), (3, 2), (3, 3)]

/-- The glider preset translated by (+1, +1) in (row, column). -/
def gliderShifted : Board := coordinates_to_matrix [(2, 3), (3, 4), (4, 2), (4, 3), (4, 4)]

/-- Witness for C2 on the 34×9 glider board. -/
theorem calculate_next_gen_eq_outer_totalistic_witness :
    binaryBoard gliderStart ∧
      calculate_next_gen gliderStart = otStep [3] [2, 3] gliderStart :=
  ⟨by decide,
   calculate_next_gen_eq_outer_totalistic gliderStart (by decide) (by decide) (by decide)⟩

set_option maxRecDepth 4000 in
/-- Claim C7: seeding the all-zero 34×9 board with the glider preset and
applying the Original outer-totalistic rule (B{3}/S{2,3}) for 4 generations
yields exactly the initial glider pattern translated by (+1, +1); the
pattern stays in rows 1–4 and columns 1–4, so no toroidal wraparound is
engaged. -/
theorem glider_four_generations :
    (otStep [3] [2, 3])^[4] gliderStart = gliderShifted := by
  decide

end LedMatrix

namespace LedMatrix

/-- Function `hpp_collide` from `HardyPomeauPazzis.py` (lines 51–66): the two
head-on collision states `NS_COLLIDE = 12` and `WE_COLLIDE = 3` swap; every
other 4-bit state passes through unchanged. -/
def hpp_collide (state : Nat) : Nat :=
  if state = 12 then 3
  else if state = 3 then 12
  else state

/-- Claim C6: `hpp_collide` is an involution on all 16 four-bit cell
states, maps West|East (3) to North|South (12) and North|South to
West|East, and is the identity on the other 14 states. -/
theorem hpp_collide_involution (s : Nat) (hs : s < 16) :
    hpp_collide (hpp_collide s) = s ∧ hpp_collide 3 = 12 ∧ hpp_collide 12 = 3 ∧
      (s ≠ 3 → s ≠ 12 → hpp_collide s = s) := by
  interval_cases s <;>
    refine ⟨by decide, by decide, by decide, fun h1 h2 => ?_⟩ <;>
    first
      | exact absurd rfl h1
      | exact absurd rfl h2
      | decide

/-- Witness for C6 at the single-particle state `W_PARTICLE = 1`. -/
theorem hpp_collide_involution_witness :
    hpp_collide (hpp_collide 1) = 1 ∧ hpp_collide 3 = 12 ∧ hpp_collide 12 = 3 ∧
      (1 ≠ 3 → 1 ≠ 12 → hpp_collide 1 = 1) :=
  hpp_collide_involution 1 (by decide)

end LedMatrix

namespace LedMatrix

/-- Per-generation detector state of `run_game_of_life` (`gameOfLife.py`
lines 174–214, identical logic in `fun.py`): the two patience counters and
the rolling history `board_previous` / `board_two_ago`, both initialised to
the Python literal `[]`. -/
structure DetState where
  stable : Nat
  osc : Nat
  prev : Board
  twoAgo : Board
  deriving DecidableEq

/-- Initial detector state (`stable_counter = 0`, `oscillator_counter = 0`,
`board_previous = []`, `board_two_ago = []`). -/
def detInit : DetState := ⟨0, 0, [], []⟩

/-- One generation of the detector, exactly the `if/elif/else` cascade of
the source followed by the end-of-iteration history update
(`board_two_ago = board_previous; board_previous = board`). -/
def detStep (st : DetState) (board : Board) : DetState :=
  if board = st.prev then ⟨st.stable + 1, 0, board, st.prev⟩
  else if board = st.twoAgo then ⟨0, st.osc + 1, board, st.prev⟩
  else ⟨0, 0, board, st.prev⟩

/-- Detector state after feeding a whole board sequence. -/
def detFold (st : DetState) (boards : List Board) : DetState :=
  boards.foldl detStep st

/-- The alternating board sequence `[A, B, A, B, ...]` of length `n`. -/
def altSeq (A B : Board) : Nat → List Board
  | 0 => []
  | n + 1 => A :: altSeq B A n

/-- Feeding the rest of an alternating sequence from a state whose history
already holds the two alternating boards leaves the stable counter at 0 and
adds one oscillation tick per board. -/
theorem detFold_alt_inv (n : Nat) :
    ∀ (A B : Board), A ≠ B → ∀ (k : Nat),
      detFold ⟨0, k, B, A⟩ (altSeq A B n) =
        ⟨0, k + n, if n % 2 = 0 then B else A, if n % 2 = 0 then A else B⟩ := by
  induction n with
  | zero => intro A B _ k; simp [detFold, altSeq]
  | succ m ih =>
      intro A B hAB k
      have hstep : detStep ⟨0, k, B, A⟩ A = ⟨0, k + 1, A, B⟩ := by
        simp [detStep, hAB]
      have := ih B A (Ne.symm hAB) (k + 1)
      simp only [altSeq, detFold, List.foldl_cons, hstep]
      rw [show List.foldl detStep ⟨0, k + 1, A, B⟩ (altSeq B A m) =
            detFold ⟨0, k + 1, A, B⟩ (altSeq B A m) from rfl, this]
      rcases Nat.even_or_odd m with hm | hm
      · have h1 : m % 2 = 0 := Nat.even_iff.mp hm
        have h2 : (m + 1) % 2 = 1 := by omega
        simp [h1, h2]
        omega
      · have h1 : m % 2 = 1 := Nat.odd_iff.mp hm
        have h2 : (m + 1) % 2 = 0 := by omega
        simp [h1, h2]
        omega

/-- Claim C4: fed the alternating sequence `[A, B, A, B, ...]` of two
distinct (nonempty, hence distinct from the `[]` history sentinel) boards,
the detector never increments the stable counter, increments the
oscillation counter on each match with the board two generations prior
(one tick per board from the third on), and the `oscillator_counter >= thr`
halt fires exactly when the count reaches the configured threshold
(`thr = 20` in `gameOfLife.py`, `thr = 10` in `fun.py`), i.e. first at
sequence length `thr + 2`; the `stable_counter >= 10` halt never fires. -/
theorem alternating_detector (A B : Board) (hAB : A ≠ B) (hA : A ≠ []) (hB : B ≠ [])
    (thr n : Nat) (hthr : 1 ≤ thr) :
    (detFold detInit (altSeq A B n)).stable = 0 ∧
      (detFold detInit (altSeq A B n)).osc = n - 2 ∧
      (thr ≤ (detFold detInit (altSeq A B n)).osc ↔ thr + 2 ≤ n) := by
  have key : detFold detInit (altSeq A B n) =
      if n = 0 then detInit
      else if n = 1 then ⟨0, 0, A, []⟩
      else detFold ⟨0, 0, B, A⟩ (altSeq A B (n - 2)) := by
    match n with
    | 0 => rfl
    | 1 => simp [detFold, altSeq, detStep, detInit, hA]
    | m + 2 =>
        simp only [altSeq, detFold, List.foldl_cons]
        have h1 : detStep detInit A = ⟨0, 0, A, []⟩ := by
          simp [detStep, detInit, hA]
        have h2 : detStep ⟨0, 0, A, []⟩ B = ⟨0, 0, B, A⟩ := by
          simp [detStep, Ne.symm hAB, hB]
        simp [h1, h2]
  rcases Nat.lt_or_ge n 2 with hn | hn
  · match n, hn with
    | 0, _ => rw [key]; simp [detInit]; omega
    | 1, _ => rw [key]; simp; omega
  · have h0 : ¬n = 0 := by omega
    have h1 : ¬n = 1 := by omega
    rw [key, if_neg h0, if_neg h1, detFold_alt_inv (n - 2) A B hAB 0]
    refine ⟨rfl, by show 0 + (n - 2) = n - 2; omega, ?_⟩
    show thr ≤ 0 + (n - 2) ↔ thr + 2 ≤ n
    omega

/-- Witness for C4: two distinct one-cell boards, threshold 20
(`gameOfLife.py`), sequence length 22. -/
theorem alternating_detector_witness :
    (detFold detInit (altSeq [[0]] [[1]] 22)).stable = 0 ∧
      (detFold detInit (altSeq [[0]] [[1]] 22)).osc = 22 - 2 ∧
      (20 ≤ (detFold detInit (altSeq [[0]] [[1]] 22)).osc ↔ 20 + 2 ≤ 22) :=
  alternating_detector [[0]] [[1]] (by decide) (by decide) (by decide) 20 22 (by decide)

end LedMatrix

namespace LedMatrix

/-- Display-sink actions a run entry point can perform: `draw` covers
`draw_matrix_on_board` / `draw_bml_board` / `draw_hpp_board`, `clear` is
`clear_graph`, and `animate b` is `start_animation` (`b = true`) or
`stop_animation` (`b = false`) from `led_matrix_commands.py`. -/
inductive Act where
  | draw
  | clear
  | animate (enabled : Bool)
  deriving DecidableEq

/-- Empty-board test of `run_game_of_life`:
`not any(1 for row in board for cell in row if cell == 1)`. -/
def boardDead (b : Board) : Prop := ∀ row ∈ b, ∀ x ∈ row, x ≠ 1

instance (b : Board) : Decidable (boardDead b) := by
  unfold boardDead; infer_instance

/-- Predicate `np.all(frame_np == 0)` from `runtime.py`. -/
def npAllZero (b : Board) : Prop := ∀ row ∈ b, ∀ x ∈ row, x = 0

instance (b : Board) : Decidable (npAllZero b) := by
  unfold npAllZero; infer_instance

/-- The generation loop of `run_game_of_life` (`gameOfLife.py` lines
179–217) as a sink-action trace: each iteration draws the board, computes
the next generation, halts on an empty board (after one more draw), runs
the detector, and halts when `stable_counter >= 10` or
`oscillator_counter >= 20`. -/
def golLoop : Board → DetState → Nat → List Act
  | _, _, 0 => []
  | board, st, n + 1 =>
    Act.draw ::
      (let b2 := calculate_next_gen board
       if boardDead b2 then [Act.draw]
       else
         let st2 := detStep st b2
         if 10 ≤ st2.stable then []
         else if 20 ≤ st2.osc then []
         else golLoop b2 st2 n)

/-- Entry point `run_game_of_life` with a provided `initial_board`: the loop runs
inside `try:`, and the `finally:` block calls `clear_graph()` once. No
animation command appears anywhere in the function. -/
def run_game_of_life_trace (initial : Board) (generations : Nat) : List Act :=
  golLoop initial detInit generations ++ [Act.clear]

/-- The frame-replay loop of `run_hpp_simulation`
(`HardyPomeauPazzis.py` lines 187–213) over the pre-computed
`all_generations` frames: draw each frame, increment the stable counter
when the frame equals the previous one (`i > 0`), reset otherwise, halt at
`stable_counter >= 20`. -/
def hppLoop : List Board → Option Board → Nat → List Act
  | [], _, _ => []
  | f :: rest, prev, stable =>
    Act.draw ::
      (let stable2 :=
        match prev with
        | none => stable
        | some p => if f = p then stable + 1 else 0
       if 20 ≤ stable2 then [] else hppLoop rest (some f) stable2)

/-- Entry point `run_hpp_simulation` after `cpl.evolve2d` has produced the frame list:
the replay loop inside `try:` and a single `clear_graph()` in `finally:`.
No animation command appears in the function. -/
def run_hpp_simulation_trace (frames : List Board) : List Act :=
  hppLoop frames none 0 ++ [Act.clear]

/-- The frame-replay loop of `run_bml`
(`BihamMiddletonLevineTrafficModel.py` lines 153–176): draw each frame;
for `i > 2` compare with the frame two half-steps back (`p2`), increment
or reset the gridlock counter, halt at `stable_counter >= 20`. `p2` is
`none` only while `i < 2`, when the source's `i > 2` guard skips the
comparison anyway. -/
def bmlLoop : List Board → Option Board → Option Board → Nat → Nat → List Act
  | [], _, _, _, _ => []
  | f :: rest, p1, p2, i, stable =>
    Act.draw ::
      (let stable2 :=
        if 2 < i then
          match p2 with
          | some q => if f = q then stable + 1 else 0
          | none => stable
        else stable
       if 20 ≤ stable2 then [] else bmlLoop rest (some f) p1 (i + 1) stable2)

/-- Entry point `run_bml` after `cpl.evolve2d`: the replay loop inside `try:` and a
single `clear_graph()` in `finally:`. No animation command appears in the
function. -/
def run_bml_trace (frames : List Board) : List Act :=
  bmlLoop frames none none 0 0 ++ [Act.clear]

/-- Halt reasons of `run_outer_totalistic_simulation` (`runtime.py`
lines 48–73). -/
inductive RTHalt where
  | oscillation
  | stillLife
  | emptyBoard
  deriving DecidableEq

/-- The frame loop of `run_outer_totalistic_simulation` (`runtime.py`
lines 43–73): draw each frame; the oscillation counter increments when the
frame equals the one two steps back (`t >= 2`) and resets otherwise,
breaking at `oscilation_max_steps`; the still-life counter increments when
`np.all(frame == 0)` and resets otherwise, breaking at
`still_board_max_steps`; the empty-board counter counts the same
`np.all(frame == 0)` condition, breaking at `empty_board_max_steps`.
The function has no `try/finally` and performs no cleanup on any path. -/
def runtimeLoop (oMax sMax eMax : Nat) :
    List Board → Option Board → Option Board → Nat → Nat → Nat →
      List Act × Option RTHalt
  | [], _, _, _, _, _ => ([], none)
  | f :: rest, p1, p2, osc, still, empt =>
    let osc2 := if p2 = some f then osc + 1 else 0
    if p2 = some f ∧ oMax ≤ osc2 then ([Act.draw], some RTHalt.oscillation)
    else
      let still2 := if npAllZero f then still + 1 else 0
      if npAllZero f ∧ sMax ≤ still2 then ([Act.draw], some RTHalt.stillLife)
      else
        let empt2 := if npAllZero f then empt + 1 else 0
        if npAllZero f ∧ eMax ≤ empt2 then ([Act.draw], some RTHalt.emptyBoard)
        else
          let next := runtimeLoop oMax sMax eMax rest (some f) p1 osc2 still2 empt2
          (Act.draw :: next.1, next.2)

/-- Entry point `run_outer_totalistic_simulation` after `run_outer_totalistic_ca` has
produced the frame list: the replay loop, its action trace, and the halt
reason (if any). -/
def run_outer_totalistic_simulation_sim (frames : List Board)
    (oMax sMax eMax : Nat) : List Act × Option RTHalt :=
  runtimeLoop oMax sMax eMax frames none none 0 0 0

/-- The `"block"` preset of `STARTING_STATES_GOF` — a still life. -/
def blockBoard : Board := coordinates_to_matrix [(17, 3), (17, 4), (18, 3), (18, 4)]

end LedMatrix

namespace LedMatrix

/-- Claim C3: the spec's stable detector ("current board equals the
immediately preceding board, counter increments on match, threshold 10")
is implemented faithfully in `run_game_of_life`, but the parallel
"still life" detector of `run_outer_totalistic_simulation` (`runtime.py`
lines 57–64) tests `np.all(frame == 0)` instead of equality with the
preceding frame: fed 12 consecutive identical copies of the (nonzero)
block still life with the default thresholds (20/10/5), the run performs
no halt at all, although the claimed detector would have fired `Stable`
at run length 10. -/
theorem runtime_still_detector_no_halt :
    (run_outer_totalistic_simulation_sim (List.replicate 12 blockBoard) 20 10 5).2 =
      none := by
  decide

/-- Every action emitted by the `run_game_of_life` loop body is a draw. -/
theorem golLoop_all_draw :
    ∀ (n : Nat) (b : Board) (st : DetState), ∀ a ∈ golLoop b st n, a = Act.draw := by
  intro n
  induction n with
  | zero => intro b st a ha; simp [golLoop] at ha
  | succ m ih =>
      intro b st a ha
      simp only [golLoop] at ha
      rcases List.mem_cons.mp ha with h | h
      · exact h
      · split_ifs at h with h1 h2 h3
        · simpa using h
        · simp at h
        · simp at h
        · exact ih _ _ a h

/-- Every action emitted by the `run_hpp_simulation` loop body is a draw. -/
theorem hppLoop_all_draw :
    ∀ (frames : List Board) (prev : Option Board) (stable : Nat),
      ∀ a ∈ hppLoop frames prev stable, a = Act.draw := by
  intro frames
  induction frames with
  | nil => intro prev st a ha; simp [hppLoop] at ha
  | cons f rest ih =>
      intro prev st a ha
      simp only [hppLoop] at ha
      rcases List.mem_cons.mp ha with h | h
      · exact h
      · split_ifs at h
        · simp at h
        · exact ih _ _ a h

/-- Every action emitted by the `run_bml` loop body is a draw. -/
theorem bmlLoop_all_draw :
    ∀ (frames : List Board) (p1 p2 : Option Board) (i stable : Nat),
      ∀ a ∈ bmlLoop frames p1 p2 i stable, a = Act.draw := by
  intro frames
  induction frames with
  | nil => intro p1 p2 i st a ha; simp [bmlLoop] at ha
  | cons f rest ih =>
      intro p1 p2 i st a ha
      simp only [bmlLoop] at ha
      rcases List.mem_cons.mp ha with h | h
      · exact h
      · split_ifs at h <;> first
          | simp at h
          | exact ih _ _ _ _ a h

/-- Every action emitted by `run_outer_totalistic_simulation` is a draw. -/
theorem runtimeLoop_all_draw :
    ∀ (frames : List Board) (p1 p2 : Option Board) (osc still empt oM sM eM : Nat),
      ∀ a ∈ (runtimeLoop oM sM eM frames p1 p2 osc still empt).1, a = Act.draw := by
  intro frames
  induction frames with
  | nil => intro p1 p2 osc still empt oM sM eM a ha; simp [runtimeLoop] at ha
  | cons f rest ih =>
      intro p1 p2 osc still empt oM sM eM a ha
      simp only [runtimeLoop] at ha
      split_ifs at ha
      all_goals first
        | simpa using ha
        | (rcases List.mem_cons.mp (by simpa using ha) with h | h
           exacts [h, ih _ _ _ _ _ _ _ _ a h])

/-- Lists of draws contain no clear. -/
theorem count_clear_of_all_draw {l : List Act} (h : ∀ a ∈ l, a = Act.draw) :
    l.count Act.clear = 0 := by
  rw [List.count_eq_zero]
  intro hc
  exact absurd (h _ hc) (by decide)

/-- Lists of draws contain no animation command. -/
theorem animate_notMem_of_all_draw {l : List Act} (h : ∀ a ∈ l, a = Act.draw)
    (x : Bool) : Act.animate x ∉ l := by
  intro hm
  exact absurd (h _ hm) (by simp)

end LedMatrix

namespace LedMatrix

/-- Counterexample to claim C9 as stated: a concrete
`run_outer_totalistic_simulation` run (three identical nonzero frames,
default thresholds — the generation budget is simply exhausted) never
clears the display sink, and a concrete `run_game_of_life` run never
issues any animation-mode command, so the claimed
"clears the display sink and stops any hardware animation mode on every
exit path" invariant fails for the code. -/
theorem run_cleanup_counterexample :
    Act.clear ∉ (run_outer_totalistic_simulation_sim (List.replicate 3 blockBoard) 20 10 5).1 ∧
      Act.animate true ∉ run_game_of_life_trace [[1]] 2 ∧
      Act.animate false ∉ run_game_of_life_trace [[1]] 2 := by
  decide

/-- Claim C9 (amended): on every synchronous exit path (termination
detected or generation/frame budget exhausted), `run_game_of_life`,
`run_hpp_simulation` and `run_bml` clear the display sink exactly once
(the single `clear_graph()` in their `finally:` blocks) and never issue an
animation-mode command; `run_outer_totalistic_simulation` performs no
cleanup at all — it neither clears the sink nor touches animation mode. -/
theorem run_cleanup_amended (b : Board) (g : Nat)
    (hppFrames bmlFrames rtFrames : List Board) (oM sM eM : Nat) :
    ((run_game_of_life_trace b g).count Act.clear = 1 ∧
        ∀ x, Act.animate x ∉ run_game_of_life_trace b g) ∧
      ((run_hpp_simulation_trace hppFrames).count Act.clear = 1 ∧
        ∀ x, Act.animate x ∉ run_hpp_simulation_trace hppFrames) ∧
      ((run_bml_trace bmlFrames).count Act.clear = 1 ∧
        ∀ x, Act.animate x ∉ run_bml_trace bmlFrames) ∧
      (Act.clear ∉ (run_outer_totalistic_simulation_sim rtFrames oM sM eM).1 ∧
        ∀ x, Act.animate x ∉ (run_outer_totalistic_simulation_sim rtFrames oM sM eM).1) := by
  have hgol := golLoop_all_draw g b detInit
  have hhpp := hppLoop_all_draw hppFrames none 0
  have hbml := bmlLoop_all_draw bmlFrames none none 0 0
  have hrt := runtimeLoop_all_draw rtFrames none none 0 0 0 oM sM eM
  refine ⟨⟨?_, ?_⟩, ⟨?_, ?_⟩, ⟨?_, ?_⟩, ?_, ?_⟩
  · rw [run_game_of_life_trace, List.count_append, count_clear_of_all_draw hgol]
    decide
  · intro x
    rw [run_game_of_life_trace]
    simp only [List.mem_append, List.mem_singleton]
    rintro (hm | hm)
    · exact animate_notMem_of_all_draw hgol x hm
    · cases hm
  · rw [run_hpp_simulation_trace, List.count_append, count_clear_of_all_draw hhpp]
    decide
  · intro x
    rw [run_hpp_simulation_trace]
    simp only [List.mem_append, List.mem_singleton]
    rintro (hm | hm)
    · exact animate_notMem_of_all_draw hhpp x hm
    · cases hm
  · rw [run_bml_trace, List.count_append, count_clear_of_all_draw hbml]
    decide
  · intro x
    rw [run_bml_trace]
    simp only [List.mem_append, List.mem_singleton]
    rintro (hm | hm)
    · exact animate_notMem_of_all_draw hbml x hm
    · cases hm
  · intro hm
    exact absurd (hrt _ hm) (by decide)
  · intro x
    exact animate_notMem_of_all_draw hrt x

end LedMatrix

namespace LedMatrix

/-- The all-zero 34×9 matrix (`[[0 for _ in range(WIDTH)] for _ in
range(HEIGHT)]`). -/
def zeroBoard34 : Board := List.replicate HEIGHT (List.replicate WIDTH 0)

/-- Function `set_led` from `led_matrix_commands.py` (lines 216–226): if
`0 <= row < HEIGHT and 0 <= col < WIDTH`, store the clamped brightness
`int(max(0, min(255, int(brightness))))`; otherwise only warn and leave
the matrix untouched. -/
def set_led (matrix : Board) (row col : Int) (brightness : Int) : Board :=
  if 0 ≤ row ∧ row < (HEIGHT : Int) ∧ 0 ≤ col ∧ col < (WIDTH : Int) then
    matrix.set row.toNat
      ((matrix.getD row.toNat []).set col.toNat (max 0 (min 255 brightness)).toNat)
  else matrix

/-- Modelled from the spec: `Board.get(r, c)` with indices "always
normalized modulo dimensions" (spec §4.1); no getter exists in the source,
which reads matrices by plain indexing. -/
def board_get (m : Board) (r c : Int) : Nat :=
  (m.getD ((r % (HEIGHT : Int)).toNat) []).getD ((c % (WIDTH : Int)).toNat) 0

/-- Counterexample to claim C8 as stated: `set_led` does not normalize
out-of-range indices modulo the grid dimensions — at `row = HEIGHT = 34`
it leaves the matrix untouched, so reading the wrapped coordinates
(row 0) afterwards returns 0, not the value 5 that was set. -/
theorem set_get_roundtrip_counterexample :
    ¬ board_get (set_led zeroBoard34 34 0 5) 34 0 = 5 := by
  decide

theorem getD_set_self {α : Type} :
    ∀ (l : List α) (n : Nat) (a d : α), n < l.length → (l.set n a).getD n d = a
  | _ :: _, 0, _, _, _ => rfl
  | _ :: l, n + 1, a, d, h => getD_set_self l n a d (by simpa using h)
  | [], _, _, _, h => absurd h (by simp)

/-- Claim C8 (amended): on a well-formed 34×9 matrix, `set_led` with
in-range coordinates followed by a read of the same coordinates returns
the clamped brightness `max 0 (min 255 brightness)`; for out-of-range
coordinates (e.g. `row = 34` or `col = -1`) `set_led` leaves the matrix
unchanged — there is no modulo normalization and no failure. -/
theorem set_led_roundtrip (m : Board) (hH : m.length = HEIGHT)
    (hW : ∀ row ∈ m, row.length = WIDTH) (row col brightness : Int) :
    (0 ≤ row → row < (HEIGHT : Int) → 0 ≤ col → col < (WIDTH : Int) →
      board_get (set_led m row col brightness) row col =
        (max 0 (min 255 brightness)).toNat) ∧
      (¬(0 ≤ row ∧ row < (HEIGHT : Int) ∧ 0 ≤ col ∧ col < (WIDTH : Int)) →
        set_led m row col brightness = m) := by
  constructor
  · intro h0 h1 h2 h3
    have hrn : row.toNat < m.length := by rw [hH]; unfold HEIGHT at h1 ⊢; omega
    have hrowmem : m.getD row.toNat [] ∈ m := by
      rw [List.getD_eq_getElem m [] hrn]
      exact List.getElem_mem hrn
    have hcn : col.toNat < (m.getD row.toNat []).length := by
      rw [hW _ hrowmem]; unfold WIDTH at h3 ⊢; omega
    unfold set_led board_get
    rw [if_pos ⟨h0, h1, h2, h3⟩]
    rw [Int.emod_eq_of_lt h0 h1, Int.emod_eq_of_lt h2 h3]
    rw [getD_set_self m row.toNat _ [] hrn]
    rw [getD_set_self _ col.toNat _ 0 hcn]
  · intro h
    unfold set_led
    rw [if_neg h]

/-- Witness for C8 (amended): an in-range set at (17, 5) with brightness
300 reads back as the clamped 255, and the out-of-range set at row −1
leaves the board unchanged. -/
theorem set_led_roundtrip_witness :
    board_get (set_led zeroBoard34 17 5 300) 17 5 = 255 ∧
      set_led zeroBoard34 (-1) 5 300 = zeroBoard34 :=
  ⟨((set_led_roundtrip zeroBoard34 (by decide) (by decide) 17 5 300).1
      (by decide) (by decide) (by decide) (by decide)).trans (by decide),
   (set_led_roundtrip zeroBoard34 (by decide) (by decide) (-1) 5 300).2 (by decide)⟩

end LedMatrix

namespace LedMatrix

/-- Function `bml_rule` from `BihamMiddletonLevineTrafficModel.py` (lines 32–96),
with the five neighbourhood reads `N = nbhd[0,1]`, `W = nbhd[1,0]`,
`c = nbhd[1,1]`, `E = nbhd[1,2]`, `S = nbhd[2,1]` passed explicitly:
`t = 0` returns the cell unchanged; odd `t` is a red turn (red moves east
into an empty snapshot cell), even `t ≥ 2` is a blue turn (blue moves
south). States: 0 empty, 1 red/right-mover, 2 blue/down-mover. -/
def bml_rule (N W c E S : Nat) (t : Nat) : Nat :=
  if t = 0 then c
  else if t % 2 = 1 then
    if c = 1 then (if E = 0 then 0 else 1)
    else if c = 0 then (if W = 1 then 1 else 0)
    else 2
  else
    if c = 2 then (if S = 0 then 0 else 2)
    else if c = 0 then (if N = 2 then 2 else 0)
    else 1

/-- One synchronous application of `bml_rule` over a toroidal `h × w`
board, as `cpl.evolve2d` performs it with periodic boundaries: every
cell's new value is computed from the same pre-step snapshot. -/
def bmlStep {h w : Nat} (t : Nat) (b : ZMod h → ZMod w → Nat) :
    ZMod h → ZMod w → Nat :=
  fun r c => bml_rule (b (r - 1) c) (b r (c - 1)) (b r c) (b r (c + 1)) (b (r + 1) c) t

/-- The toroidal row `[red, empty, empty]`. -/
def bmlRow3 : ZMod 1 → ZMod 3 → Nat := fun _ c => if c = 0 then 1 else 0

/-- Claim C5: starting a red phase (odd `t`) from the wrapping row
`[red, empty, empty]`, one synchronous application of `bml_rule` moves the
car exactly one cell east — the origin becomes empty, the next cell
becomes red, and the second cell east stays empty — because every decision
reads the pre-phase snapshot. -/
theorem bml_red_phase_moves_one (t : Nat) (ht : t % 2 = 1) :
    bmlStep t bmlRow3 = fun _ c => if c = 1 then 1 else 0 := by
  have ht0 : ¬t = 0 := by omega
  funext r c
  simp only [bmlStep, bml_rule, if_neg ht0, ht, if_pos]
  revert r c
  decide

/-- Witness for C5 at the first red phase `t = 1`. -/
theorem bml_red_phase_moves_one_witness :
    bmlStep 1 bmlRow3 = fun _ c => if c = 1 then 1 else 0 :=
  bml_red_phase_moves_one 1 (by decide)

end LedMatrix

namespace LedMatrix

/-- Number of red (east-moving, value 1) cells of a toroidal board. -/
def redCount {h w : Nat} [NeZero h] [NeZero w] (b : ZMod h → ZMod w → Nat) : Nat :=
  ∑ p : ZMod h × ZMod w, if b p.1 p.2 = 1 then 1 else 0

/-- Number of blue (south-moving, value 2) cells of a toroidal board. -/
def blueCount {h w : Nat} [NeZero h] [NeZero w] (b : ZMod h → ZMod w → Nat) : Nat :=
  ∑ p : ZMod h × ZMod w, if b p.1 p.2 = 2 then 1 else 0

theorem ite_split_red (x y z : Nat) :
    (if (if x = 1 then (if z = 0 then (0 : Nat) else 1)
         else if x = 0 then (if y = 1 then 1 else 0) else 2) = 1
     then (1 : Nat) else 0)
      = (if x = 1 ∧ ¬z = 0 then 1 else 0) + (if x = 0 ∧ y = 1 then 1 else 0) := by
  split_ifs <;> first | contradiction | omega

theorem ite_split_blue (x y z : Nat) :
    (if (if x = 2 then (if z = 0 then (0 : Nat) else 2)
         else if x = 0 then (if y = 2 then 2 else 0) else 1) = 2
     then (1 : Nat) else 0)
      = (if x = 2 ∧ ¬z = 0 then 1 else 0) + (if x = 0 ∧ y = 2 then 1 else 0) := by
  split_ifs <;> first | contradiction | omega

theorem ite_merge (v x z : Nat) :
    ((if x = v ∧ ¬z = 0 then (1 : Nat) else 0) + (if z = 0 ∧ x = v then 1 else 0))
      = if x = v then 1 else 0 := by
  split_ifs <;> first | contradiction | omega

theorem ite_blue_red_turn (x y z : Nat) (hx : x = 0 ∨ x = 1 ∨ x = 2) :
    (if (if x = 1 then (if z = 0 then (0 : Nat) else 1)
         else if x = 0 then (if y = 1 then 1 else 0) else 2) = 2
     then (1 : Nat) else 0) = if x = 2 then 1 else 0 := by
  rcases hx with rfl | rfl | rfl <;> split_ifs <;> first | contradiction | omega

theorem ite_red_blue_turn (x y z : Nat) (hx : x = 0 ∨ x = 1 ∨ x = 2) :
    (if (if x = 2 then (if z = 0 then (0 : Nat) else 2)
         else if x = 0 then (if y = 2 then 2 else 0) else 1) = 1
     then (1 : Nat) else 0) = if x = 1 then 1 else 0 := by
  rcases hx with rfl | rfl | rfl <;> split_ifs <;> first | contradiction | omega

/-- Claim C10: every synchronous toroidal application of `bml_rule` at a
timestep `t ≥ 1` preserves the number of red cells and the number of blue
cells of a well-formed BML board (cells in {0, 1, 2}): cars move but are
never created or destroyed by a half-step. -/
theorem bmlStep_preserves_cars {h w : Nat} [NeZero h] [NeZero w]
    (b : ZMod h → ZMod w → Nat) (t : Nat) (ht : 1 ≤ t)
    (hv : ∀ r c, b r c = 0 ∨ b r c = 1 ∨ b r c = 2) :
    redCount (bmlStep t b) = redCount b ∧ blueCount (bmlStep t b) = blueCount b := by
  have ht0 : ¬t = 0 := by omega
  rcases Nat.mod_two_eq_zero_or_one t with hpar | hpar
  · -- blue turn
    have hstep : ∀ r c, bmlStep t b r c =
        if b r c = 2 then (if b (r + 1) c = 0 then 0 else 2)
        else if b r c = 0 then (if b (r - 1) c = 2 then 2 else 0) else 1 := by
      intro r c
      unfold bmlStep bml_rule
      rw [if_neg ht0, if_neg (by omega : ¬t % 2 = 1)]
    constructor
    · unfold redCount
      refine Finset.sum_congr rfl fun p _ => ?_
      rw [hstep]
      exact ite_red_blue_turn _ _ _ (hv p.1 p.2)
    · unfold blueCount
      have h1 : (∑ p : ZMod h × ZMod w, if bmlStep t b p.1 p.2 = 2 then 1 else 0)
          = ∑ p : ZMod h × ZMod w,
              ((if b p.1 p.2 = 2 ∧ ¬b (p.1 + 1) p.2 = 0 then 1 else 0) +
                (if b p.1 p.2 = 0 ∧ b (p.1 - 1) p.2 = 2 then 1 else 0)) := by
        refine Finset.sum_congr rfl fun p _ => ?_
        rw [hstep]
        exact ite_split_blue _ _ _
      rw [h1, Finset.sum_add_distrib]
      have h2 : (∑ p : ZMod h × ZMod w, if b p.1 p.2 = 0 ∧ b (p.1 - 1) p.2 = 2 then 1 else 0)
          = ∑ p : ZMod h × ZMod w, if b (p.1 + 1) p.2 = 0 ∧ b p.1 p.2 = 2 then 1 else 0 := by
        refine Fintype.sum_equiv
          (Equiv.prodCongr (Equiv.subRight (1 : ZMod h)) (Equiv.refl (ZMod w))) _ _
          fun p => ?_
        simp [sub_add_cancel]
      rw [h2, ← Finset.sum_add_distrib]
      refine Finset.sum_congr rfl fun p _ => ?_
      have := ite_merge 2 (b p.1 p.2) (b (p.1 + 1) p.2)
      omega
  · -- red turn
    have hstep : ∀ r c, bmlStep t b r c =
        if b r c = 1 then (if b r (c + 1) = 0 then 0 else 1)
        else if b r c = 0 then (if b r (c - 1) = 1 then 1 else 0) else 2 := by
      intro r c
      unfold bmlStep bml_rule
      rw [if_neg ht0, if_pos hpar]
    constructor
    · unfold redCount
      have h1 : (∑ p : ZMod h × ZMod w, if bmlStep t b p.1 p.2 = 1 then 1 else 0)
          = ∑ p : ZMod h × ZMod w,
              ((if b p.1 p.2 = 1 ∧ ¬b p.1 (p.2 + 1) = 0 then 1 else 0) +
                (if b p.1 p.2 = 0 ∧ b p.1 (p.2 - 1) = 1 then 1 else 0)) := by
        refine Finset.sum_congr rfl fun p _ => ?_
        rw [hstep]
        exact ite_split_red _ _ _
      rw [h1, Finset.sum_add_distrib]
      have h2 : (∑ p : ZMod h × ZMod w, if b p.1 p.2 = 0 ∧ b p.1 (p.2 - 1) = 1 then 1 else 0)
          = ∑ p : ZMod h × ZMod w, if b p.1 (p.2 + 1) = 0 ∧ b p.1 p.2 = 1 then 1 else 0 := by
        refine Fintype.sum_equiv
          (Equiv.prodCongr (Equiv.refl (ZMod h)) (Equiv.subRight (1 : ZMod w))) _ _
          fun p => ?_
        simp [sub_add_cancel]
      rw [h2, ← Finset.sum_add_distrib]
      refine Finset.sum_congr rfl fun p _ => ?_
      have := ite_merge 1 (b p.1 p.2) (b p.1 (p.2 + 1))
      omega
    · unfold blueCount
      refine Finset.sum_congr rfl fun p _ => ?_
      rw [hstep]
      exact ite_blue_red_turn _ _ _ (hv p.1 p.2)

/-- Witness for C10: the first red half-step on the wrapping row
`[red, empty, empty]`. -/
theorem bmlStep_preserves_cars_witness :
    redCount (bmlStep 1 bmlRow3) = redCount bmlRow3 ∧
      blueCount (bmlStep 1 bmlRow3) = blueCount bmlRow3 :=
  bmlStep_preserves_cars bmlRow3 1 (by decide) (by decide)

end LedMatrix
